import Mathlib

/-!
Shallow embedding of the kiya local encrypted secret store (package
`backend`, file store) and the surrounding command layer, with proofs about
its AEAD envelope cipher, store persistence, backend contract and the
backup/restore commands.

Bytes are modelled as `Nat` (no 0..255 bound is imposed; none of the
verified properties depends on the bound).  Byte sequences are `List Nat`.
File contents are modelled as `List Char` where the textual structure of
the content matters (JSON store file), with the empty file being `[]`.

The cryptographic primitives from `golang.org/x/crypto` (argon2,
XChaCha20-Poly1305) are external library calls; they are embedded as an
ideal, executable model that preserves the structure the store code relies
on: the derived key is an injective deterministic function of passphrase
and salt, sealing masks the plaintext with a key/nonce-determined
keystream and appends a 16-cell tag determined by key, nonce and
ciphertext, and opening verifies the tag before unmasking.  Lengths match
the real construction (ciphertext-with-tag is plaintext length + 16).
-/

/-- Error taxonomy of the store code.  The Go code returns `error` values
with distinct messages; each distinct failure is one constructor:
`notFound k` is `fmt.Errorf("%s not found", key)` from `FileStore.Get`,
`authenticationError` is the `"message authentication failed"` error,
`formatError` is `errors.New("data has incorrect format")` from
`FileStore.decrypt` (and a JSON unmarshal failure in `getStore`), and
`alreadyExists k` is `fmt.Errorf("secret with key ... already exists")`
from `VaultStore.Put`. -/
inductive KiyaError where
  | notFound (key : String)
  | authenticationError
  | formatError
  | alreadyExists (key : String)
deriving DecidableEq, Repr

/-- Injective encoding of a byte sequence into a single `Nat`
(`2 ^ a * (2 * rest + 1)` per cell), used by the ideal model of the
key-derivation function to make the derived key a function of the whole
passphrase and the whole salt. -/
def encodeList : List Nat → Nat
  | [] => 0
  | a :: t => 2 ^ a * (2 * encodeList t + 1)

/-- Model of `argon2.Key(pass, salt, 3, 32*1024, 4, 32)` from
`golang.org/x/crypto/argon2`: the 32-byte derived key is modelled as a
single opaque value that is an injective deterministic function of the
passphrase and the salt (the fixed cost parameters make the passphrase and
salt the only inputs). -/
def argon2Key (pass salt : List Nat) : Nat :=
  Nat.pair (encodeList pass) (encodeList salt)

/-- Keystream cell `i` of the ideal XChaCha20 stream for a given key and
nonce. -/
def ksCell (key : Nat) (nonce : List Nat) (i : Nat) : Nat :=
  Nat.pair key (Nat.pair nonce.sum i)

/-- Mask a byte sequence with the keystream starting at offset `i`
(encryption and decryption are the same XOR operation, as in a stream
cipher). -/
def xorKS (key : Nat) (nonce : List Nat) : Nat → List Nat → List Nat
  | _, [] => []
  | i, b :: t => (b ^^^ ksCell key nonce i) :: xorKS key nonce (i + 1) t

/-- One cell of the ideal Poly1305 tag: a deterministic function of the
key, the nonce and the ciphertext, injective in the key for a fixed nonce
and ciphertext (which is what tag verification under a wrongly derived key
relies on). -/
def tagCell (key : Nat) (nonce ct : List Nat) : Nat :=
  Nat.pair key (Nat.pair nonce.sum ct.sum)

/-- Model of `chacha20poly1305.NewX(key)` + `cipher.Seal(nil, nonce, data,
nil)`: ciphertext is the masked plaintext followed by a 16-cell tag, so
the output is 16 cells longer than the input, as in the real AEAD. -/
def sealX (key : Nat) (nonce pt : List Nat) : List Nat :=
  let ct := xorKS key nonce 0 pt
  ct ++ List.replicate 16 (tagCell key nonce ct)

/-- Model of `cipher.Open(nil, nonce, data, nil)`: reject inputs shorter
than the 16-cell tag, recompute the tag over the ciphertext part and
compare with the transmitted tag, and unmask only on success. -/
def openX (key : Nat) (nonce data : List Nat) : Option (List Nat) :=
  if data.length < 16 then none
  else
    let ct := data.take (data.length - 16)
    let tag := data.drop (data.length - 16)
    if tag = List.replicate 16 (tagCell key nonce ct) then
      some (xorKS key nonce 0 ct)
    else none

/-- Model of `makeNonce`: reading `n` fresh bytes from the secure random
source, which is modelled as an arbitrary tape `rand : Nat → Nat`; offset
`off` distinguishes successive reads.  (`makeNonce` panics, fatally, when
the source cannot supply the bytes; the tape model always supplies them.) -/
def makeNonce (rand : Nat → Nat) (off n : Nat) : List Nat :=
  (List.range n).map (fun i => rand (off + i))

/-- Embedding of `FileStore.encrypt` from the source: generate a 16-byte random salt,
derive the key with argon2, generate a 24-byte random nonce, seal, and
return `salt ++ nonce ++ ciphertext-with-tag`.  The random source is the
tape `rand` (salt is bytes 0..15, nonce bytes 16..39, exactly as the two
successive `makeNonce` calls consume the reader).  The Go function's only
error path is `chacha20poly1305.NewX` rejecting a key whose length is not
32, which cannot happen with argon2's fixed 32-byte output, so the model
is total. -/
def FileStore.encrypt (rand : Nat → Nat) (data pass : List Nat) : List Nat :=
  let salt := makeNonce rand 0 16
  let key := argon2Key pass salt
  let nonce := makeNonce rand 16 24
  salt ++ nonce ++ sealX key nonce data

/-- Embedding of `FileStore.decrypt` from the source: blobs shorter than 40 bytes fail
with the `"data has incorrect format"` error; otherwise the first 16 bytes
are the salt, bytes 16..39 the nonce, the key is re-derived, and the rest
is opened, any open failure becoming the authentication error. -/
def FileStore.decrypt (data pass : List Nat) : Except KiyaError (List Nat) :=
  if data.length < 40 then .error .formatError
  else
    let salt := data.take 16
    let nonce := (data.drop 16).take 24
    let rest := data.drop 40
    let key := argon2Key pass salt
    match openX key nonce rest with
    | some pt => .ok pt
    | none => .error .authenticationError

theorem xorKS_length (key : Nat) (nonce : List Nat) :
    ∀ (i : Nat) (l : List Nat), (xorKS key nonce i l).length = l.length := by
  intro i l
  induction l generalizing i with
  | nil => rfl
  | cons b t ih => simp [xorKS, ih]

theorem xorKS_involutive (key : Nat) (nonce : List Nat) :
    ∀ (i : Nat) (l : List Nat), xorKS key nonce i (xorKS key nonce i l) = l := by
  intro i l
  induction l generalizing i with
  | nil => rfl
  | cons b t ih =>
    simp only [xorKS, List.cons.injEq]
    constructor
    · rw [Nat.xor_assoc, Nat.xor_self, Nat.xor_zero]
    · exact ih (i + 1)

theorem sealX_length (key : Nat) (nonce pt : List Nat) :
    (sealX key nonce pt).length = pt.length + 16 := by
  simp [sealX, xorKS_length]

theorem openX_sealX (key : Nat) (nonce pt : List Nat) :
    openX key nonce (sealX key nonce pt) = some pt := by
  have hlen : (sealX key nonce pt).length = pt.length + 16 := sealX_length key nonce pt
  have hct : (xorKS key nonce 0 pt).length = pt.length := xorKS_length key nonce 0 pt
  unfold openX
  rw [hlen]
  rw [if_neg (by omega)]
  have hsub : pt.length + 16 - 16 = (xorKS key nonce 0 pt).length := by omega
  simp only [sealX, hsub]
  rw [List.take_left, List.drop_left]
  rw [if_pos rfl]
  rw [xorKS_involutive]

theorem decrypt_parts (salt nonce body pass : List Nat)
    (hs : salt.length = 16) (hn : nonce.length = 24) :
    FileStore.decrypt (salt ++ (nonce ++ body)) pass =
      match openX (argon2Key pass salt) nonce body with
      | some pt => Except.ok pt
      | none => Except.error KiyaError.authenticationError := by
  have hlen : (salt ++ (nonce ++ body)).length = 40 + body.length := by
    simp [List.length_append, hs, hn]; omega
  simp only [FileStore.decrypt]
  rw [if_neg (by rw [hlen]; omega)]
  rw [List.take_left' hs, List.drop_left' hs, List.take_left' hn]
  rw [show (40 : Nat) = 16 + 24 from rfl, ← List.drop_drop]
  rw [List.drop_left' hs, List.drop_left' hn]

theorem decrypt_encrypt_ok (rand : Nat → Nat) (data pass : List Nat) :
    FileStore.decrypt (FileStore.encrypt rand data pass) pass = Except.ok data := by
  have hs : (makeNonce rand 0 16).length = 16 := by simp [makeNonce]
  have hn : (makeNonce rand 16 24).length = 24 := by simp [makeNonce]
  simp only [FileStore.encrypt]
  rw [List.append_assoc, decrypt_parts _ _ _ _ hs hn, openX_sealX]

/-- C1.  AEAD round trip: for every random tape, plaintext byte sequence
and passphrase, `FileStore.decrypt (FileStore.encrypt B P) P` returns `B`. -/
theorem aead_round_trip (rand : Nat → Nat) (data pass : List Nat) :
    FileStore.decrypt (FileStore.encrypt rand data pass) pass = Except.ok data :=
  decrypt_encrypt_ok rand data pass

theorem two_pow_odd_inj : ∀ {a b c d : Nat},
    2 ^ a * (2 * b + 1) = 2 ^ c * (2 * d + 1) → a = c ∧ b = d := by
  intro a
  induction a with
  | zero =>
    intro b c d h
    cases c with
    | zero => simp at h; omega
    | succ c =>
      exfalso
      have h2 : 2 ∣ 2 ^ (c + 1) := dvd_pow_self 2 (Nat.succ_ne_zero c)
      have h3 : 2 ∣ 2 * b + 1 := by
        rw [pow_zero, one_mul] at h
        rw [h]
        exact Dvd.dvd.mul_right h2 _
      omega
  | succ a ih =>
    intro b c d h
    cases c with
    | zero =>
      exfalso
      have h2 : 2 ∣ 2 ^ (a + 1) := dvd_pow_self 2 (Nat.succ_ne_zero a)
      have h3 : 2 ∣ 2 * d + 1 := by
        rw [pow_zero, one_mul] at h
        rw [← h]
        exact Dvd.dvd.mul_right h2 _
      omega
    | succ c =>
      have hh : 2 ^ a * (2 * b + 1) * 2 = 2 ^ c * (2 * d + 1) * 2 := by
        calc 2 ^ a * (2 * b + 1) * 2 = 2 ^ (a + 1) * (2 * b + 1) := by ring
        _ = 2 ^ (c + 1) * (2 * d + 1) := h
        _ = 2 ^ c * (2 * d + 1) * 2 := by ring
      have h' := Nat.eq_of_mul_eq_mul_right (by norm_num) hh
      obtain ⟨h1, h2⟩ := ih h'
      exact ⟨by omega, h2⟩

theorem encodeList_injective : ∀ {l1 l2 : List Nat},
    encodeList l1 = encodeList l2 → l1 = l2 := by
  intro l1
  induction l1 with
  | nil =>
    intro l2 h
    cases l2 with
    | nil => rfl
    | cons b u =>
      exfalso
      simp only [encodeList] at h
      have hp : 0 < 2 ^ b * (2 * encodeList u + 1) :=
        Nat.mul_pos (pow_pos (by norm_num) b) (by omega)
      omega
  | cons a t ih =>
    intro l2 h
    cases l2 with
    | nil =>
      exfalso
      simp only [encodeList] at h
      have hp : 0 < 2 ^ a * (2 * encodeList t + 1) :=
        Nat.mul_pos (pow_pos (by norm_num) a) (by omega)
      omega
    | cons b u =>
      simp only [encodeList] at h
      obtain ⟨hab, he⟩ := two_pow_odd_inj h
      rw [hab, ih he]

theorem replicate16_inj {a b : Nat}
    (h : List.replicate 16 a = List.replicate 16 b) : a = b := by
  have h' : a :: List.replicate 15 a = b :: List.replicate 15 b := h
  exact ((List.cons.injEq _ _ _ _).mp h').1

theorem openX_sealX_wrong_key (k k' : Nat) (nonce pt : List Nat) (h : k ≠ k') :
    openX k' nonce (sealX k nonce pt) = none := by
  have hlen := sealX_length k nonce pt
  unfold openX
  rw [hlen, if_neg (by omega)]
  have hsub : pt.length + 16 - 16 = (xorKS k nonce 0 pt).length := by
    rw [xorKS_length]
    omega
  simp only [sealX, hsub]
  rw [List.take_left, List.drop_left]
  rw [if_neg]
  intro hEq
  exact h (Nat.pair_eq_pair.mp (replicate16_inj hEq)).1

/-- C8.  Decrypting a blob produced by `FileStore.encrypt` under one
passphrase with any different passphrase fails with the authentication
error: the key derived from the wrong passphrase yields a different tag,
so the AEAD tag check fails. -/
theorem decrypt_wrong_passphrase (rand : Nat → Nat) (data p1 p2 : List Nat)
    (h : p1 ≠ p2) :
    FileStore.decrypt (FileStore.encrypt rand data p1) p2 =
      Except.error KiyaError.authenticationError := by
  have hs : (makeNonce rand 0 16).length = 16 := by simp [makeNonce]
  have hn : (makeNonce rand 16 24).length = 24 := by simp [makeNonce]
  have hk : argon2Key p1 (makeNonce rand 0 16) ≠ argon2Key p2 (makeNonce rand 0 16) := by
    intro hEq
    exact h (encodeList_injective (Nat.pair_eq_pair.mp hEq).1)
  simp only [FileStore.encrypt]
  rw [List.append_assoc, decrypt_parts _ _ _ _ hs hn]
  rw [openX_sealX_wrong_key _ _ _ _ hk]

/-- Witness for C8 at a concrete input: passphrases `[1]` and `[2]`
differ, and decryption under the wrong one fails with the authentication
error. -/
theorem decrypt_wrong_passphrase_witness :
    ([1] : List Nat) ≠ [2] ∧
      FileStore.decrypt (FileStore.encrypt (fun _ => 0) [7] [1]) [2] =
        Except.error KiyaError.authenticationError :=
  ⟨by decide, decrypt_wrong_passphrase (fun _ => 0) [7] [1] [2] (by decide)⟩

/-- C7.  Blobs shorter than 40 bytes fail `FileStore.decrypt` with the
format error and never with the authentication error; for blobs of at
least 40 bytes the first 16 bytes are used as the salt and the next 24
bytes as the nonce of the AEAD open (key derivation and tag check happen
only in that branch, on exactly those components). -/
theorem decrypt_format_error (blob pass : List Nat) :
    (blob.length < 40 →
      FileStore.decrypt blob pass = Except.error KiyaError.formatError) ∧
    (blob.length < 40 →
      FileStore.decrypt blob pass ≠ Except.error KiyaError.authenticationError) ∧
    (40 ≤ blob.length →
      FileStore.decrypt blob pass =
        match openX (argon2Key pass (blob.take 16)) ((blob.drop 16).take 24)
            (blob.drop 40) with
        | some pt => Except.ok pt
        | none => Except.error KiyaError.authenticationError) := by
  refine ⟨?_, ?_, ?_⟩
  · intro h
    simp only [FileStore.decrypt]
    rw [if_pos h]
  · intro h hc
    simp only [FileStore.decrypt] at hc
    rw [if_pos h] at hc
    exact KiyaError.noConfusion (Except.error.inj hc)
  · intro h
    simp only [FileStore.decrypt]
    rw [if_neg (by omega)]

/-- Witness for C7 at concrete inputs: a 39-byte blob fails with the
format error (and not the authentication error), and a 40-byte blob is
split into salt and nonce as stated. -/
theorem decrypt_format_error_witness :
    FileStore.decrypt (List.replicate 39 0) [1] = Except.error KiyaError.formatError ∧
    FileStore.decrypt (List.replicate 39 0) [1] ≠ Except.error KiyaError.authenticationError ∧
    FileStore.decrypt (List.replicate 40 0) [1] =
      match openX (argon2Key [1] ((List.replicate 40 (0 : Nat)).take 16))
          (((List.replicate 40 (0 : Nat)).drop 16).take 24)
          ((List.replicate 40 (0 : Nat)).drop 40) with
      | some pt => Except.ok pt
      | none => Except.error KiyaError.authenticationError :=
  ⟨(decrypt_format_error (List.replicate 39 0) [1]).1 (by decide),
   (decrypt_format_error (List.replicate 39 0) [1]).2.1 (by decide),
   (decrypt_format_error (List.replicate 40 0) [1]).2.2 (by decide)⟩

/-- C9.  Every blob produced by `FileStore.encrypt` is exactly
`56 + len(plaintext)` bytes long: 16 bytes of salt, then 24 bytes of
nonce, then the ciphertext carrying its 16-cell tag; in particular it is
strictly longer than the 40-byte minimum `FileStore.decrypt` requires. -/
theorem encrypt_blob_length (rand : Nat → Nat) (data pass : List Nat) :
    (FileStore.encrypt rand data pass).length = 56 + data.length ∧
    40 < (FileStore.encrypt rand data pass).length ∧
    (FileStore.encrypt rand data pass).take 16 = makeNonce rand 0 16 ∧
    ((FileStore.encrypt rand data pass).drop 16).take 24 = makeNonce rand 16 24 := by
  have hs : (makeNonce rand 0 16).length = 16 := by simp [makeNonce]
  have hn : (makeNonce rand 16 24).length = 24 := by simp [makeNonce]
  have hlen : (FileStore.encrypt rand data pass).length = 56 + data.length := by
    simp only [FileStore.encrypt, List.length_append, hs, hn, sealX_length]
    omega
  refine ⟨hlen, by omega, ?_, ?_⟩
  · simp only [FileStore.encrypt]
    rw [List.append_assoc, List.take_left' hs]
  · simp only [FileStore.encrypt]
    rw [List.append_assoc, List.drop_left' hs, List.take_left' hn]

/-- The `Key` metadata record of the `backend` package (declared outside
the file store source; its fields are exactly those the store code reads
and writes: `Name`, `CreatedAt`, `Owner`, `Info`).  `CreatedAt` is a Go
`time.Time`; it is modelled by its RFC3339 JSON text. -/
structure Key where
  name : String
  createdAt : String
  owner : String
  info : String
deriving DecidableEq, Repr

/-- Embedding of `FileStoreEntry` from the source: the encrypted value bytes plus the
key metadata. -/
structure FileStoreEntry where
  value : List Nat
  keyInfo : Key
deriving DecidableEq, Repr

/-- The in-memory scan of `FileStore.Get` over the decoded store: return
the decryption of the first entry whose `KeyInfo.Name` equals the key
(any decryption failure becoming the `"message authentication failed"`
error), or the `"not found"` error when no entry matches. -/
def FileStore.get : List FileStoreEntry → List Nat → String → Except KiyaError (List Nat)
  | [], _, key => .error (.notFound key)
  | e :: rest, pass, key =>
    if e.keyInfo.name = key then
      match FileStore.decrypt e.value pass with
      | .ok v => .ok v
      | .error _ => .error .authenticationError
    else FileStore.get rest pass key

/-- Embedding of `FileStore.List` over the decoded store: the `Key` metadata of every
entry, in stored order, values never decrypted. -/
def FileStore.list (entries : List FileStoreEntry) : List Key :=
  entries.map (·.keyInfo)

/-- Embedding of `FileStore.CheckExists` over the decoded store: a boolean scan over
names only. -/
def FileStore.checkExists (entries : List FileStoreEntry) (key : String) : Bool :=
  entries.any (fun e => e.keyInfo.name == key)

/-- The record `FileStore.Put` builds: the encrypted value and a `Key`
with the given name, the current time, the best-effort OS user name and
an empty `Info`. -/
def mkFileStoreEntry (rand : Nat → Nat) (pass : List Nat) (key : String)
    (value : List Nat) (now owner : String) : FileStoreEntry :=
  ⟨FileStore.encrypt rand value pass, ⟨key, now, owner, ""⟩⟩

/-- The in-memory transformation of `FileStore.Put`: append the new
record to the loaded sequence, with no deduplication against existing
same-named records. -/
def FileStore.put (rand : Nat → Nat) (entries : List FileStoreEntry) (pass : List Nat)
    (key : String) (value : List Nat) (now owner : String) : List FileStoreEntry :=
  entries ++ [mkFileStoreEntry rand pass key value now owner]

/-- The in-memory transformation of `FileStore.Delete`: drop every record
whose name matches. -/
def FileStore.deleteEntries (entries : List FileStoreEntry) (key : String) : List FileStoreEntry :=
  entries.filter (fun e => e.keyInfo.name != key)

/-- C2.  `FileStore.Get` returns the decryption of the first record (in
stored order) whose `Key.Name` equals the requested name, mapping any
decryption failure to the authentication error; when no record matches it
fails with the not-found error, which is a different error value than the
authentication error. -/
theorem get_first_match (entries : List FileStoreEntry) (pass : List Nat) (key : String) :
    FileStore.get entries pass key =
      (match entries.find? (fun e => e.keyInfo.name == key) with
       | none => Except.error (KiyaError.notFound key)
       | some e =>
         match FileStore.decrypt e.value pass with
         | Except.ok v => Except.ok v
         | Except.error _ => Except.error KiyaError.authenticationError) ∧
    decide (KiyaError.notFound key = KiyaError.authenticationError) = false := by
  constructor
  · induction entries with
    | nil => rfl
    | cons e rest ih =>
      simp only [FileStore.get]
      by_cases h : e.keyInfo.name = key
      · rw [if_pos h, List.find?_cons_of_pos _ (by simpa using h)]
      · rw [if_neg h, List.find?_cons_of_neg _ (by simpa using h)]
        exact ih
  · exact decide_eq_false (fun h => KiyaError.noConfusion h)

theorem get_append_no_match (l1 l2 : List FileStoreEntry) (pass : List Nat) (key : String)
    (h : ∀ e ∈ l1, e.keyInfo.name ≠ key) :
    FileStore.get (l1 ++ l2) pass key = FileStore.get l2 pass key := by
  induction l1 with
  | nil => rfl
  | cons e rest ih =>
    have he : e.keyInfo.name ≠ key := h e (by simp)
    simp only [List.cons_append, FileStore.get, if_neg he]
    exact ih (fun x hx => h x (by simp [hx]))

theorem filter_keys_no_match (l : List FileStoreEntry) (key : String)
    (h : ∀ e ∈ l, e.keyInfo.name ≠ key) :
    (l.map (fun e => e.keyInfo)).filter (fun k => k.name == key) = [] := by
  induction l with
  | nil => rfl
  | cons e rest ih =>
    have he : (e.keyInfo.name == key) = false :=
      beq_eq_false_iff_ne.mpr (h e (by simp))
    simp only [List.map_cons, List.filter_cons, he]
    exact ih (fun x hx => h x (by simp [hx]))

/-- C5.  `FileStore.Put` always appends the new record at the end of the
loaded sequence with no deduplication; after two successive Puts under
the same name (on a store that has no record of that name yet), `Get` of
that name returns the value stored by the first Put, and `List` shows
exactly two entries with that name. -/
theorem put_append_duplicate_names (rand1 rand2 : Nat → Nat)
    (entries : List FileStoreEntry) (pass v1 v2 : List Nat)
    (key now1 now2 owner1 owner2 : String)
    (h : ∀ e ∈ entries, e.keyInfo.name ≠ key) :
    FileStore.put rand1 entries pass key v1 now1 owner1 =
      entries ++ [mkFileStoreEntry rand1 pass key v1 now1 owner1] ∧
    FileStore.get
        (FileStore.put rand2 (FileStore.put rand1 entries pass key v1 now1 owner1)
          pass key v2 now2 owner2) pass key = Except.ok v1 ∧
    ((FileStore.list
        (FileStore.put rand2 (FileStore.put rand1 entries pass key v1 now1 owner1)
          pass key v2 now2 owner2)).filter (fun k => k.name == key)).length = 2 := by
  refine ⟨rfl, ?_, ?_⟩
  · simp only [FileStore.put, List.append_assoc]
    rw [get_append_no_match _ _ _ _ h]
    simp [FileStore.get, mkFileStoreEntry, decrypt_encrypt_ok]
  · simp only [FileStore.put, List.append_assoc, FileStore.list, List.map_append,
      List.filter_append]
    rw [filter_keys_no_match entries key h]
    simp [mkFileStoreEntry]

/-- Witness for C5 at a concrete input: starting from the empty store,
two Puts under the name `"db-pass"` leave `Get` returning the first value
and `List` showing two entries with that name. -/
theorem put_append_duplicate_names_witness :
    (∀ e ∈ ([] : List FileStoreEntry), e.keyInfo.name ≠ "db-pass") ∧
    FileStore.get
        (FileStore.put (fun _ => 1) (FileStore.put (fun _ => 0) [] [9] "db-pass" [5] "t1" "o1")
          [9] "db-pass" [6] "t2" "o2") [9] "db-pass" = Except.ok [5] ∧
    ((FileStore.list
        (FileStore.put (fun _ => 1) (FileStore.put (fun _ => 0) [] [9] "db-pass" [5] "t1" "o1")
          [9] "db-pass" [6] "t2" "o2")).filter (fun k => k.name == "db-pass")).length = 2 :=
  ⟨by simp,
   (put_append_duplicate_names (fun _ => 0) (fun _ => 1) [] [9] [5] [6]
      "db-pass" "t1" "t2" "o1" "o2" (by simp)).2.1,
   (put_append_duplicate_names (fun _ => 0) (fun _ => 1) [] [9] [5] [6]
      "db-pass" "t1" "t2" "o1" "o2" (by simp)).2.2⟩

/-- The key/value state of a remote secret backend (Vault KVv2 paths or
AWS secret ids mapped to their current value).  The vendor client calls
are modelled as operations on this association list. -/
def kvWrite (st : List (String × String)) (key value : String) : List (String × String) :=
  (key, value) :: st.filter (fun p => p.1 != key)

/-- Embedding of `VaultStore.CheckExists` from the source: a KVv2 read that reports
whether the key is present (a 404 from the server becomes `false`). -/
def VaultStore.checkExists (st : List (String × String)) (key : String) : Bool :=
  (st.lookup key).isSome

/-- Embedding of `VaultStore.Put` from the source: when `overwrite` is false and
`CheckExists` reports the key present, fail with the
`"secret with key ... already exists"` error; otherwise issue the KVv2
write. -/
def VaultStore.put (st : List (String × String)) (key value : String)
    (overwrite : Bool) : Except KiyaError (List (String × String)) :=
  if !overwrite && VaultStore.checkExists st key then
    .error (.alreadyExists key)
  else .ok (kvWrite st key value)

/-- Embedding of `AWSSecretManager.CheckExists` from the source: a `GetSecretValue`
call that reports whether the secret is present. -/
def AWSSecretManager.checkExists (st : List (String × String)) (key : String) : Bool :=
  (st.lookup key).isSome

/-- Embedding of `AWSSecretManager.Put` from the source: it builds a
`PutSecretValueInput` from the key and value only and issues the write
unconditionally — the `overwrite` parameter is never consulted. -/
def AWSSecretManager.put (st : List (String × String)) (key value : String)
    (overwrite : Bool) : Except KiyaError (List (String × String)) :=
  .ok (kvWrite st key value)

/-- C4 counterexample: the secret `"k"` already exists in the AWS backend
state, yet `AWSSecretManager.Put` with `overwrite = false` succeeds and
replaces the value instead of failing — the claim that every remote
backend rejects an existing key when `overwrite = false` is false for
this backend. -/
theorem aws_put_overwrite_counterexample :
    AWSSecretManager.checkExists [("k", "v0")] "k" = true ∧
    AWSSecretManager.put [("k", "v0")] "k" "v1" false = Except.ok [("k", "v1")] := by
  constructor
  · rfl
  · rfl

/-- C4 (amended).  The Vault backend honors the overwrite flag: with
`overwrite = false` it fails when the key exists and writes when it does
not, and with `overwrite = true` it always writes.  The AWS Secret
Manager backend ignores the flag and always writes.  The local file
store's Put takes no overwrite flag at all and always appends. -/
theorem put_overwrite_semantics (st : List (String × String)) (key value : String)
    (entries : List FileStoreEntry) (rand : Nat → Nat) (pass v : List Nat)
    (now owner : String) :
    (VaultStore.checkExists st key = true →
      VaultStore.put st key value false = Except.error (KiyaError.alreadyExists key)) ∧
    (VaultStore.checkExists st key = false →
      VaultStore.put st key value false = Except.ok (kvWrite st key value)) ∧
    (VaultStore.put st key value true = Except.ok (kvWrite st key value)) ∧
    (∀ ow : Bool, AWSSecretManager.put st key value ow = Except.ok (kvWrite st key value)) ∧
    (FileStore.put rand entries pass key v now owner =
      entries ++ [mkFileStoreEntry rand pass key v now owner]) := by
  refine ⟨?_, ?_, ?_, fun _ => rfl, rfl⟩
  · intro h
    simp [VaultStore.put, h]
  · intro h
    simp [VaultStore.put, h]
  · simp [VaultStore.put]

/-- Witness for C4 (amended) at concrete inputs: on state
`[("a", "1")]`, a Vault put of the existing key `"a"` without overwrite
fails, and a Vault put of the absent key `"b"` without overwrite writes. -/
theorem put_overwrite_semantics_witness :
    VaultStore.checkExists [("a", "1")] "a" = true ∧
    VaultStore.put [("a", "1")] "a" "2" false = Except.error (KiyaError.alreadyExists "a") ∧
    VaultStore.checkExists [("a", "1")] "b" = false ∧
    VaultStore.put [("a", "1")] "b" "2" false = Except.ok (kvWrite [("a", "1")] "b" "2") :=
  ⟨rfl,
   (put_overwrite_semantics [("a", "1")] "a" "2" [] (fun _ => 0) [] [] "" "").1 rfl,
   rfl,
   (put_overwrite_semantics [("a", "1")] "b" "2" [] (fun _ => 0) [] [] "" "").2.1 rfl⟩

/-- Lowercase hex digit, as Go's JSON encoder emits in unicode escapes. -/
def hexDigit (n : Nat) : Char :=
  if n < 10 then Char.ofNat (48 + n) else Char.ofNat (87 + n)

/-- One character of Go `encoding/json` string escaping: quote and
backslash are backslash-escaped, newline, carriage return and tab use
their short escapes, the HTML-sensitive characters and the remaining
control characters use unicode escapes, and every other character is
emitted as is. -/
def escapeChar (c : Char) : List Char :=
  if c = Char.ofNat 34 then [Char.ofNat 92, Char.ofNat 34]
  else if c = Char.ofNat 92 then [Char.ofNat 92, Char.ofNat 92]
  else if c = Char.ofNat 10 then [Char.ofNat 92, 'n']
  else if c = Char.ofNat 13 then [Char.ofNat 92, 'r']
  else if c = Char.ofNat 9 then [Char.ofNat 92, 't']
  else if c = '<' ∨ c = '>' ∨ c = '&' ∨ c.toNat < 32 then
    [Char.ofNat 92, 'u', '0', '0', hexDigit (c.toNat / 16), hexDigit (c.toNat % 16)]
  else [c]

/-- Go `encoding/json` string escaping over a whole string. -/
def escapeString (s : String) : List Char :=
  s.toList.foldr (fun c acc => escapeChar c ++ acc) []

/-- The standard base64 alphabet used by Go's `encoding/json` for
`[]byte` values. -/
def base64Table : List Char :=
  "ABCDEFGHIJKLMNOPQRSTUVWXYZabcdefghijklmnopqrstuvwxyz0123456789+/".toList

/-- Index into the base64 alphabet (reduced mod 64, which keeps the
function total on the unbounded `Nat` cells of the byte model). -/
def b64At (n : Nat) : Char :=
  base64Table.getD (n % 64) 'A'

/-- Standard padded base64 of a byte sequence, three input bytes per four
output characters. -/
def base64Chars : List Nat → List Char
  | [] => []
  | [a] => [b64At (a / 4), b64At (a % 4 * 16), '=', '=']
  | [a, b] => [b64At (a / 4), b64At (a % 4 * 16 + b / 16), b64At (b % 16 * 4), '=']
  | a :: b :: c :: rest =>
    [b64At (a / 4), b64At (a % 4 * 16 + b / 16), b64At (b % 16 * 4 + c / 64),
      b64At (c % 64)] ++ base64Chars rest

mutual

/-- JSON value grammar, used to state what a syntactically valid JSON
document is (only the forms Go's `json.Marshal` produces for the store
file are needed: strings, arrays and objects). -/
inductive Json where
  | str (s : String)
  | arr (items : JsonItems)
  | obj (fields : JsonFields)

/-- The item list of a JSON array. -/
inductive JsonItems where
  | nil
  | cons (head : Json) (tail : JsonItems)

/-- The field list of a JSON object. -/
inductive JsonFields where
  | nil
  | cons (key : String) (val : Json) (tail : JsonFields)

end

mutual

/-- Print a JSON value the way Go's `json.Marshal` does (no whitespace,
fields in struct order, strings escaped). -/
def printJson : Json → List Char
  | .str s => Char.ofNat 34 :: escapeString s ++ [Char.ofNat 34]
  | .arr items => '[' :: printItems items ++ [']']
  | .obj fields => Char.ofNat 123 :: printFields fields ++ [Char.ofNat 125]

/-- Print array items, comma-separated. -/
def printItems : JsonItems → List Char
  | .nil => []
  | .cons h .nil => printJson h
  | .cons h (.cons h2 t) => printJson h ++ ',' :: printItems (.cons h2 t)

/-- Print object fields, comma-separated. -/
def printFields : JsonFields → List Char
  | .nil => []
  | .cons k v .nil => printOneField k v
  | .cons k v (.cons k2 v2 t) => printOneField k v ++ ',' :: printFields (.cons k2 v2 t)

/-- Print one `"key":value` object field. -/
def printOneField (k : String) (v : Json) : List Char :=
  Char.ofNat 34 :: escapeString k ++ Char.ofNat 34 :: ':' :: printJson v

end

/-- The JSON encoding of a `Key`, fields in Go struct order. -/
def keyToJson (k : Key) : Json :=
  .obj (.cons "Name" (.str k.name) (.cons "CreatedAt" (.str k.createdAt)
    (.cons "Owner" (.str k.owner) (.cons "Info" (.str k.info) .nil))))

/-- The JSON encoding of a `FileStoreEntry`: the `Value` bytes as a
base64 string, then the `KeyInfo` object. -/
def entryToJson (e : FileStoreEntry) : Json :=
  .obj (.cons "Value" (.str (String.mk (base64Chars e.value)))
    (.cons "KeyInfo" (keyToJson e.keyInfo) .nil))

/-- The JSON array items for a list of entries, in order. -/
def entriesToItems : List FileStoreEntry → JsonItems
  | [] => .nil
  | e :: t => .cons (entryToJson e) (entriesToItems t)

/-- Model of `json.Marshal` of a (non-nil) entry slice: a JSON array document. -/
def jsonMarshal (l : List FileStoreEntry) : List Char :=
  printJson (.arr (entriesToItems l))

/-- Embedding of `FileStore.createStoreIfNotExists` at file level: an absent store
file is created with empty (zero-byte) content; an existing file is left
as is.  The disk is `none` when the file is absent, `some content`
otherwise. -/
def FileStore.createStoreIfNotExists : Option (List Char) → List Char
  | none => []
  | some c => c

/-- Embedding of `FileStore.getStore` at file level, parameterized by the JSON
decoder `unmarshal` (Go's `json.Unmarshal` into `[]FileStoreEntry`,
`none` meaning a decode error): ensure the file exists, read it, let a
zero-length file yield the empty sequence, and otherwise decode, a decode
failure being a format error.  Returns the file content after the
ensure-exists step together with the result. -/
def FileStore.getStoreFile (unmarshal : List Char → Option (List FileStoreEntry))
    (disk : Option (List Char)) : List Char × Except KiyaError (List FileStoreEntry) :=
  let content := FileStore.createStoreIfNotExists disk
  if content.isEmpty then (content, .ok [])
  else
    match unmarshal content with
    | some l => (content, .ok l)
    | none => (content, .error .formatError)

/-- Embedding of `FileStore.Put` at file level: ensure the file exists, load the
store, append the new encrypted record and rewrite the whole file —
the file write is the final step, so on any load error the content on
disk is the unchanged pre-call content.  Returns the resulting file
content and the error, if any. -/
def FileStore.putFile (unmarshal : List Char → Option (List FileStoreEntry))
    (rand : Nat → Nat) (disk : Option (List Char)) (pass : List Nat) (key : String)
    (value : List Nat) (now owner : String) : List Char × Option KiyaError :=
  match (FileStore.getStoreFile unmarshal disk).2 with
  | .error e => ((FileStore.getStoreFile unmarshal disk).1, some e)
  | .ok entries =>
    (jsonMarshal (FileStore.put rand entries pass key value now owner), none)

/-- Embedding of `FileStore.Delete` at file level: load the store, drop every record
with the given name, and rewrite; when the remaining sequence is empty,
write literal zero bytes (the Go code writes `""` specifically so that
`"null"` is never written for the nil slice). -/
def FileStore.deleteFile (unmarshal : List Char → Option (List FileStoreEntry))
    (disk : Option (List Char)) (key : String) : List Char × Option KiyaError :=
  match (FileStore.getStoreFile unmarshal disk).2 with
  | .error e => ((FileStore.getStoreFile unmarshal disk).1, some e)
  | .ok entries =>
    if (FileStore.deleteEntries entries key).isEmpty then ([], none)
    else (jsonMarshal (FileStore.deleteEntries entries key), none)

/-- Formalization of "zero bytes or a syntactically valid JSON array":
the file content is either empty or the printed form of a JSON array
literal. -/
inductive StoreDiskOk : List Char → Prop where
  | empty : StoreDiskOk []
  | jsonArr (items : JsonItems) : StoreDiskOk (printJson (Json.arr items))

theorem getStoreFile_fst (unmarshal : List Char → Option (List FileStoreEntry))
    (c : List Char) : (FileStore.getStoreFile unmarshal (some c)).1 = c := by
  simp only [FileStore.getStoreFile, FileStore.createStoreIfNotExists]
  split
  · rfl
  · split <;> rfl

/-- C6.  Empty-store representation invariant: a freshly created store
file is exactly zero bytes and loading it yields the empty sequence (so
`List` is empty); every content `Delete` or `Put` leaves on disk is
either zero bytes or a printed JSON array; and when `Delete` leaves no
remaining records it writes exactly zero bytes (not the text `"null"` or
`"[]"`, which the zero-byte content differs from). -/
theorem store_file_invariant (unmarshal : List Char → Option (List FileStoreEntry))
    (c : List Char) (entries : List FileStoreEntry) (rand : Nat → Nat)
    (pass value : List Nat) (key now owner : String) :
    FileStore.createStoreIfNotExists none = [] ∧
    FileStore.getStoreFile unmarshal none = ([], Except.ok []) ∧
    FileStore.list [] = [] ∧
    (([] : List Char) ≠ "null".toList ∧ ([] : List Char) ≠ "[]".toList) ∧
    (StoreDiskOk c → StoreDiskOk (FileStore.deleteFile unmarshal (some c) key).1) ∧
    (StoreDiskOk c →
      StoreDiskOk (FileStore.putFile unmarshal rand (some c) pass key value now owner).1) ∧
    (unmarshal c = some entries → (FileStore.deleteEntries entries key).isEmpty = true →
      FileStore.deleteFile unmarshal (some c) key = ([], none)) := by
  refine ⟨rfl, rfl, rfl, ⟨by decide, by decide⟩, ?_, ?_, ?_⟩
  · intro hOk
    unfold FileStore.deleteFile
    cases hg : (FileStore.getStoreFile unmarshal (some c)).2 with
    | error e =>
      simp only [getStoreFile_fst]
      exact hOk
    | ok es =>
      by_cases hr : (FileStore.deleteEntries es key).isEmpty
      · simp only [hr, if_true]
        exact StoreDiskOk.empty
      · simp only [hr, if_false]
        exact StoreDiskOk.jsonArr _
  · intro hOk
    unfold FileStore.putFile
    cases hg : (FileStore.getStoreFile unmarshal (some c)).2 with
    | error e =>
      simp only [getStoreFile_fst]
      exact hOk
    | ok es =>
      exact StoreDiskOk.jsonArr _
  · intro hu hr
    unfold FileStore.deleteFile
    by_cases hc : c.isEmpty
    · have hc' : c = [] := List.isEmpty_iff.mp hc
      subst hc'
      simp only [FileStore.getStoreFile, FileStore.createStoreIfNotExists]
      simp only [List.isEmpty_nil, if_true]
      have : (FileStore.deleteEntries ([] : List FileStoreEntry) key).isEmpty = true := rfl
      simp only [this, if_true]
    · have hg : (FileStore.getStoreFile unmarshal (some c)).2 = Except.ok entries := by
        simp only [FileStore.getStoreFile, FileStore.createStoreIfNotExists]
        rw [if_neg (by simpa using hc), hu]
      rw [hg]
      simp only [hr, if_true]

/-- Witness for C6 at concrete inputs: deleting on the zero-byte store
leaves a content satisfying the invariant, and a delete that removes the
last record (decoder yielding an empty remainder on content `"x"`)
writes exactly zero bytes. -/
theorem store_file_invariant_witness :
    StoreDiskOk (FileStore.deleteFile (fun _ => some []) (some []) "k").1 ∧
    FileStore.deleteFile (fun _ => some []) (some ['x']) "k" = ([], none) :=
  ⟨(store_file_invariant (fun _ => some []) [] [] (fun _ => 0) [] [] "k" "" "").2.2.2.2.1
      StoreDiskOk.empty,
   (store_file_invariant (fun _ => some []) ['x'] [] (fun _ => 0) [] [] "k" "" "").2.2.2.2.2.2
      rfl rfl⟩

/-- C10.  Put atomicity on error: for a store whose file already exists
with content `c`, when `FileStore.Put` fails (the only failure the file
level can produce after the file exists is a load failure, since
encryption and JSON marshalling of the entry slice are total) the file
content is unchanged; the file is rewritten, with the appended record,
only after loading succeeds, as the final step. -/
theorem put_error_preserves_file (unmarshal : List Char → Option (List FileStoreEntry))
    (rand : Nat → Nat) (c : List Char) (pass value : List Nat) (key now owner : String) :
    ((FileStore.putFile unmarshal rand (some c) pass key value now owner).2.isSome = true →
      (FileStore.putFile unmarshal rand (some c) pass key value now owner).1 = c) ∧
    (∀ entries, (FileStore.getStoreFile unmarshal (some c)).2 = Except.ok entries →
      FileStore.putFile unmarshal rand (some c) pass key value now owner =
        (jsonMarshal (FileStore.put rand entries pass key value now owner), none)) := by
  constructor
  · intro hsome
    unfold FileStore.putFile at hsome ⊢
    cases hg : (FileStore.getStoreFile unmarshal (some c)).2 with
    | error e => simp only [getStoreFile_fst]
    | ok es =>
      rw [hg] at hsome
      simp at hsome
  · intro entries hg
    unfold FileStore.putFile
    rw [hg]

/-- Witness for C10 at a concrete input: with a decoder that rejects the
content `"x"`, Put fails and the resulting file content is the original
`"x"`; with a decoder that accepts it as the empty sequence, Put rewrites
the file with the marshalled one-record store. -/
theorem put_error_preserves_file_witness :
    (FileStore.putFile (fun _ => none) (fun _ => 0) (some ['x']) [1] "k" [5] "t" "o").2.isSome = true ∧
    (FileStore.putFile (fun _ => none) (fun _ => 0) (some ['x']) [1] "k" [5] "t" "o").1 = ['x'] ∧
    FileStore.putFile (fun _ => some []) (fun _ => 0) (some ['x']) [1] "k" [5] "t" "o" =
      (jsonMarshal (FileStore.put (fun _ => 0) [] [1] "k" [5] "t" "o"), none) :=
  ⟨rfl,
   (put_error_preserves_file (fun _ => none) (fun _ => 0) ['x'] [1] [5] "k" "t" "o").1 rfl,
   (put_error_preserves_file (fun _ => some []) (fun _ => 0) ['x'] [1] [5] "k" "t" "o").2 [] rfl⟩

/-- The `restore` command case from `cmd/kiya/utils.go`: read the backup
file, JSON-decode it directly into a name-to-value mapping (a decode
failure is a fatal exit, modelled as the format error), and `Put` every
entry into the destination backend under the name suffixed with
`"_restore"`.  The decryption block that would unwrap a `WrappedKey`
with a recipient private key is commented out in the source, so the
function takes no private key and never performs an AEAD open: the
decoder `unmarshalMap` models `json.Unmarshal` into `map[string][]byte`.
The returned list is the sequence of `(renamed key, value)` pairs the
command Puts. -/
def restoreCommand (unmarshalMap : List Char → Option (List (String × String)))
    (buf : List Char) : Except KiyaError (List (String × String)) :=
  match unmarshalMap buf with
  | none => .error .formatError
  | some items => .ok (items.map (fun kv => (kv.1 ++ "_restore", kv.2)))

/-- Is the result the authentication error? -/
def isAuthError {α : Type} : Except KiyaError α → Bool
  | .error .authenticationError => true
  | _ => false

/-- C3 (refuting evaluation).  The restore command never produces an
authentication error and never consults a recipient private key: on any
backup content its result is determined by the JSON decode alone — a
fatal decode error on content that is not a cleartext JSON mapping (such
as an encrypted `Payload`), and the suffix-renamed mapping otherwise. -/
theorem restore_never_unwraps (unmarshalMap : List Char → Option (List (String × String)))
    (buf : List Char) :
    isAuthError (restoreCommand unmarshalMap buf) = false ∧
    (unmarshalMap buf = none →
      restoreCommand unmarshalMap buf = Except.error KiyaError.formatError) ∧
    (∀ items, unmarshalMap buf = some items →
      restoreCommand unmarshalMap buf =
        Except.ok (items.map (fun kv => (kv.1 ++ "_restore", kv.2)))) := by
  refine ⟨?_, ?_, ?_⟩
  · cases h : unmarshalMap buf <;> simp [restoreCommand, h, isAuthError]
  · intro h
    simp [restoreCommand, h]
  · intro items h
    simp [restoreCommand, h]

/-- Witness for C3 at a concrete input: on backup content that is not a
JSON mapping (as an encrypted payload is), restore fails with the fatal
decode (format) error — not an authentication error, and without any
private-key unwrap. -/
theorem restore_never_unwraps_witness :
    isAuthError (restoreCommand (fun _ => none) "ciphertext".toList) = false ∧
    restoreCommand (fun _ => none) "ciphertext".toList = Except.error KiyaError.formatError :=
  ⟨(restore_never_unwraps (fun _ => none) "ciphertext".toList).1,
   (restore_never_unwraps (fun _ => none) "ciphertext".toList).2.1 rfl⟩
